import Mathlib

/-!
Shallow embedding of the Jig VS Code extension's grammar-generation script
(scripts/generate-grammars.ts, current revision) and of the tokenization test
harness helpers (tests/helpers/grammar.ts), together with theorems settling
the specification claims about them.

JavaScript records are modelled as association lists in insertion order,
JavaScript `Set`s as lists, and optional fields as `Option`.  String
operations are modelled on `String.data` (`List Char`) so that everything
evaluates inside the kernel.
-/

namespace Jig

/-- Literal brace characters, written via code points. -/
def lbrace : Char := Char.ofNat 123

def rbrace : Char := Char.ofNat 125

/-- JS `String.prototype.replace` with a plain-string pattern replaces only the
first occurrence (or returns the string unchanged when the pattern is absent).
List-level worker. -/
def replaceFirstList (pat repl : List Char) : List Char → List Char
  | [] => if pat = [] then repl else []
  | c :: rest =>
    if pat.isPrefixOf (c :: rest) then repl ++ (c :: rest).drop pat.length
    else c :: replaceFirstList pat repl rest

/-- JS `s.replace(pat, repl)` for a plain-string `pat` (first occurrence only). -/
def jsReplaceFirst (s pat repl : String) : String :=
  ⟨replaceFirstList pat.data repl.data s.data⟩

/-- JS `s.startsWith(pat)`. -/
def jsStartsWith (s pat : String) : Bool :=
  pat.data.isPrefixOf s.data

/-- JS `s.endsWith(pat)`. -/
def jsEndsWith (s pat : String) : Bool :=
  pat.data.isSuffixOf s.data

theorem string_data_append (a b : String) : (a ++ b).data = a.data ++ b.data := by
  cases a; cases b; rfl

theorem string_append_assoc (a b c : String) : a ++ b ++ c = a ++ (b ++ c) := by
  cases a with
  | mk as =>
    cases b with
    | mk bs =>
      cases c with
      | mk cs =>
        show String.mk ((as ++ bs) ++ cs) = String.mk (as ++ (bs ++ cs))
        rw [List.append_assoc]

/-- Splitting a merged string literal back into `a ++ (p ++ x)` form. -/
theorem append_split (a p q x : String) (h : a ++ p = q) :
    q ++ x = a ++ (p ++ x) := by
  rw [← h, string_append_assoc]

/-- Splitting a merged string literal back off a three-part concatenation. -/
theorem append_split2 (a p x y q : String) (h : a ++ p = q) :
    q ++ x ++ y = a ++ (p ++ x ++ y) := by
  rw [← h, string_append_assoc a p x, string_append_assoc a (p ++ x) y]

/-- The characters escaped by `escapeRegex` (`/[.*+?^${}()|[\]\\]/g`). -/
def regexSpecials : List Char :=
  ['.', '*', '+', '?', '^', '$', lbrace, rbrace, '(', ')', '|', '[', ']', '\\']

/-- `escapeRegex` from generate-grammars.ts: prefix every regex special with a
backslash. -/
def escapeRegex (s : String) : String :=
  ⟨s.data.flatMap (fun c => if regexSpecials.contains c then ['\\', c] else [c])⟩

/-- `LanguageConfig` from generate-grammars.ts (one languages.json entry). -/
structure LanguageConfig where
  id : String
  aliases : List String
  extensions : List String
  hostLanguageScope : String
  vscodeLangId : Option String := none
  overrideAliases : Option (List String) := none
  injectionSelector : Option String := none
  hasGreedyContexts : Option Bool := none
deriving DecidableEq, Repr

/-- `getShortName`: `lang.id.replace('jig-', '')`. -/
def getShortName (lang : LanguageConfig) : String :=
  jsReplaceFirst lang.id "jig-" ""

/-- `getScopeKey`: the short name with every dash replaced by an underscore
(the script uses a global dash regex). -/
def getScopeKey (lang : LanguageConfig) : String :=
  ⟨(getShortName lang).data.map (fun c => if c = '-' then '_' else c)⟩

/-- `getPerLanguageScopeName`: `source.jig.html` for jig-html, else
`text.jig.<short>`. -/
def getPerLanguageScopeName (lang : LanguageConfig) : String :=
  if lang.id = "jig-html" then "source.jig.html"
  else "text.jig." ++ getShortName lang

/-- `resolveVscodeLangId`: `lang.vscodeLangId ?? shortName`. -/
def resolveVscodeLangId (lang : LanguageConfig) : String :=
  lang.vscodeLangId.getD (getShortName lang)

/-- `buildLanguageAlternation`: case-insensitive alternation of the short name
and the override aliases, each regex-escaped. -/
def buildLanguageAlternation (lang : LanguageConfig) : String :=
  let shortName := getShortName lang
  let names := shortName :: (lang.overrideAliases.getD [])
  let escaped := names.map escapeRegex
  "(?i:" ++ String.intercalate "|" escaped ++ ")"

/-- `buildAllLanguageAlternation`: alternation over every language's short name
and aliases. -/
def buildAllLanguageAlternation (languages : List LanguageConfig) : String :=
  let names := languages.flatMap
    (fun lang => escapeRegex (getShortName lang)
      :: (lang.overrideAliases.getD []).map escapeRegex)
  "(?i:" ++ String.intercalate "|" names ++ ")"

/-- The scalar fields a generated TextMate rule object may carry.  Capture
tables are association lists from capture index (as a decimal string, as the
script builds them) to the assigned scope name. -/
structure RuleCore where
  incl : Option String := none
  comment : Option String := none
  name : Option String := none
  contentName : Option String := none
  begin_ : Option String := none
  end_ : Option String := none
  while_ : Option String := none
  match_ : Option String := none
  beginCaptures : List (String × String) := []
  endCaptures : List (String × String) := []
  captures : List (String × String) := []
deriving DecidableEq, Repr

/-- A generated TextMate rule: scalar fields plus nested `patterns`. -/
inductive Rule where
  | node (core : RuleCore) (patterns : List Rule)
deriving Repr

def Rule.core : Rule → RuleCore
  | .node c _ => c

def Rule.patterns : Rule → List Rule
  | .node _ ps => ps

/-- An `{ include: s }` pattern object. -/
def Rule.ofIncl (s : String) : Rule := .node { incl := some s } []

/-- `generateEmbedTagRule(targetLang, injected)`: the embed rule for one target
language.  Greedy targets and injected variants use begin/while; non-greedy
top-level variants use begin/end.  Literal braces in the regex strings are
written `\x7b`/`\x7d`. -/
def generateEmbedTagRule (targetLang : LanguageConfig) (injected : Bool) : Rule :=
  let shortName := getShortName targetLang
  let key := getScopeKey targetLang
  let langAlternation := buildLanguageAlternation targetLang
  let hasGreedy : Bool := targetLang.hasGreedyContexts == some true
  let hostScope := targetLang.hostLanguageScope
  let anchor := if injected then "(^|\\G)" else "^"
  let capOffset : Nat := if injected then 1 else 0
  let beginPattern := anchor ++
    "(\\s*)(@\x7b1,2\x7d(!)?[a-zA-Z._]+\\s\x7b0,2\x7d)(\\([^)]*\\))(\\s*:\\s*"
    ++ langAlternation ++ ")\\s*$"
  let beginCaptures : List (String × String) :=
    [(toString (2 + capOffset), "support.function.jig"),
     (toString (4 + capOffset), "meta.embedded.block.javascript"),
     (toString (5 + capOffset), "storage.type.embedded.jig")]
  let patterns : List Rule :=
    (if !hasGreedy && !injected then [Rule.ofIncl ("#jig_block_" ++ key)] else [])
    ++ [Rule.ofIncl "source.jig", Rule.ofIncl hostScope]
  if hasGreedy || injected then
    let whilePattern := anchor ++ "(?!\\" ++ (if injected then "2" else "1")
      ++ "@end\\s*$)"
    .node { contentName := some ("meta.embedded.block." ++ shortName),
            begin_ := some beginPattern,
            beginCaptures := beginCaptures,
            while_ := some whilePattern } patterns
  else
    .node { contentName := some ("meta.embedded.block." ++ shortName),
            begin_ := some beginPattern,
            beginCaptures := beginCaptures,
            end_ := some "^\\s*(@end)\\s*$",
            endCaptures := [("1", "support.function.jig")] } patterns

/-- `generateJigBlock(hostScope, selfRef)`: the recursive block consumer. -/
def generateJigBlock (hostScope selfRef : String) : Rule :=
  .node
    { comment := some ("Consumes @tag(...)...@end pairs (host = " ++ hostScope ++ ")"),
      begin_ := some "^(\\s*)(@\x7b1,2\x7d(!)?[a-zA-Z._]+\\s\x7b0,2\x7d)(\\([^)]*\\))\\s*$",
      beginCaptures :=
        [("2", "support.function.jig"), ("4", "meta.embedded.block.javascript")],
      end_ := some "^\\s*(@end[a-zA-Z]*)\\s*$",
      endCaptures := [("1", "support.function.jig")] }
    [Rule.ofIncl ("#" ++ selfRef), Rule.ofIncl "source.jig", Rule.ofIncl hostScope]

/-- `generateJigEmbedInnerPatterns()`: the inlined Jig base patterns used by the
markdown-piercing injection. -/
def generateJigEmbedInnerPatterns : Rule :=
  .node
    { comment := some ("Jig patterns for use inside embed blocks via injection. Includes all of source.jig\x27s patterns inlined so they pierce markdown contexts.") }
    [ .node
        { comment := some "Jig comment",
          begin_ := some "\\\x7b\x7b--",
          end_ := some "\\--\x7d\x7d",
          beginCaptures := [("0", "punctuation.definition.comment.begin.jig")],
          endCaptures := [("0", "punctuation.definition.comment.end.jig")],
          name := some "comment.block" } [],
      .node
        { comment := some "Escaped mustache",
          begin_ := some "\\@\x7b\x7b",
          end_ := some "\\\x7d\x7d",
          beginCaptures := [("0", "punctuation.definition.comment.begin.jig")],
          endCaptures := [("0", "punctuation.definition.comment.end.jig")],
          name := some "comment.block" } [],
      .node
        { comment := some "Safe mustache",
          begin_ := some "\\\x7b\x7b\x7b",
          end_ := some "\\\x7d\x7d\x7d",
          beginCaptures := [("0", "punctuation.mustache.begin")],
          endCaptures := [("0", "punctuation.mustache.end")],
          name := some "meta.embedded.block.javascript" }
        [Rule.ofIncl "source.ts#expression"],
      .node
        { comment := some "Mustache",
          begin_ := some "\\\x7b\x7b",
          end_ := some "\\\x7d\x7d",
          beginCaptures := [("0", "punctuation.mustache.begin")],
          endCaptures := [("0", "punctuation.mustache.end")],
          name := some "meta.embedded.block.javascript" }
        [Rule.ofIncl "source.ts#expression"],
      .node
        { comment := some "Non-seekable tag (@end, @else, etc.) — scoping only, no nesting",
          match_ := some "(^|\\G)(\\s*)((@\x7b1,2\x7d)(!)?([a-zA-Z._]+))(~)?$",
          captures := [("3", "support.function.jig")] } [],
      .node
        { comment := some "Tag with parens — scoping only, no nesting",
          begin_ := some "(^|\\G)(\\s*)((@\x7b1,2\x7d)(!)?([a-zA-Z._]+)(\\s\x7b0,2\x7d))(\\()",
          beginCaptures :=
            [("3", "support.function.jig"), ("8", "punctuation.paren.open")],
          end_ := some "\\)",
          endCaptures := [("0", "punctuation.paren.close")],
          name := some "meta.embedded.block.javascript" }
        [Rule.ofIncl "source.ts#expression"] ]

/-- One entry of the grammar's `injections` record: an optional comment plus
the injected patterns. -/
structure InjectionEntry where
  comment : Option String := none
  patterns : List Rule
deriving Repr

/-- The per-language grammar object produced by `generatePerLanguageGrammar`. -/
structure Grammar where
  name : String
  scopeName : String
  comment : String
  fileTypes : List String
  injections : List (String × InjectionEntry)
  patterns : List Rule
  repository : List (String × Rule)
deriving Repr

/-- `ext.replace(/^\./, '')` — strip one leading dot. -/
def stripLeadingDot (e : String) : String :=
  match e.data with
  | '.' :: rest => ⟨rest⟩
  | _ => e

/-- The mutable accumulators of `generatePerLanguageGrammar`'s target loop. -/
structure AsmState where
  repository : List (String × Rule)
  topLevelPatterns : List Rule
  primaryInjectionPatterns : List Rule
  mdInjectionPatterns : List Rule
  hasGreedyTarget : Bool
deriving Repr

/-- The repository entries one loop iteration adds for a target language. -/
def targetRepoChunk (targetLang : LanguageConfig) : List (String × Rule) :=
  let targetKey := getScopeKey targetLang
  [("embed_tag_" ++ targetKey, generateEmbedTagRule targetLang false),
   ("embed_tag_" ++ targetKey ++ "_injected", generateEmbedTagRule targetLang true)]
  ++ (if targetLang.hasGreedyContexts == some true then []
      else [("jig_block_" ++ targetKey,
             generateJigBlock targetLang.hostLanguageScope ("jig_block_" ++ targetKey))])

/-- One iteration of the `for (const targetLang of allLanguages)` loop. -/
def processTarget (st : AsmState) (targetLang : LanguageConfig) : AsmState :=
  let targetKey := getScopeKey targetLang
  { repository := st.repository ++ targetRepoChunk targetLang,
    topLevelPatterns :=
      st.topLevelPatterns ++ [Rule.ofIncl ("#embed_tag_" ++ targetKey)],
    primaryInjectionPatterns :=
      st.primaryInjectionPatterns ++ [Rule.ofIncl ("#embed_tag_" ++ targetKey)],
    mdInjectionPatterns :=
      st.mdInjectionPatterns ++ [Rule.ofIncl ("#embed_tag_" ++ targetKey ++ "_injected")],
    hasGreedyTarget :=
      st.hasGreedyTarget || (targetLang.hasGreedyContexts == some true) }

/-- `generatePerLanguageGrammar(lang, allLanguages)`. -/
def generatePerLanguageGrammar
    (lang : LanguageConfig) (allLanguages : List LanguageConfig) : Grammar :=
  let shortName := getShortName lang
  let scopeName := getPerLanguageScopeName lang
  let isHtml : Bool := lang.id == "jig-html"
  let st0 : AsmState :=
    { repository :=
        [("jig_embed_inner_patterns", generateJigEmbedInnerPatterns),
         ("jig_block", generateJigBlock lang.hostLanguageScope "jig_block")],
      topLevelPatterns := [],
      primaryInjectionPatterns := [],
      mdInjectionPatterns := [],
      hasGreedyTarget := false }
  let st := allLanguages.foldl processTarget st0
  let primaryInjectionPatterns :=
    st.primaryInjectionPatterns ++ [Rule.ofIncl "source.jig"]
  let mdInjectionPatterns :=
    st.mdInjectionPatterns ++ [Rule.ofIncl "#jig_embed_inner_patterns"]
  let topLevelPatterns :=
    st.topLevelPatterns ++ [Rule.ofIncl "source.jig"]
    ++ (if isHtml then [Rule.ofIncl "text.html.basic", Rule.ofIncl "text.html.derivative"]
        else [Rule.ofIncl lang.hostLanguageScope])
  let primarySelector : String :=
    if isHtml then
      String.intercalate ", "
        [scopeName ++ " - (meta.embedded | meta.tag | comment.block.jig)",
         "L:(" ++ scopeName ++ " meta.tag - (comment.block.jig | meta.embedded.block.jig))",
         "L:(source.ts.embedded.html - (comment.block.jig | meta.embedded.block.jig))"]
    else
      lang.injectionSelector.getD
        ("L:" ++ scopeName ++ " - (comment.block | comment.block.jig | meta.embedded)")
  let injections : List (String × InjectionEntry) :=
    [(primarySelector, { patterns := primaryInjectionPatterns })]
    ++ (if st.hasGreedyTarget then
          [("L:meta.embedded.block.markdown - (comment.block | comment.block.jig)",
            { comment := some "Pierce markdown greedy contexts (paragraph, list) so Jig embed tags, tags, and mustache still highlight.",
              patterns := mdInjectionPatterns })]
        else [])
  { name := "jig-" ++ shortName,
    scopeName := scopeName,
    comment := (lang.aliases.head?.getD ("Jig " ++ shortName))
      ++ " Templates — auto-generated by scripts/generate-grammars.ts",
    fileTypes := lang.extensions.map stripLeadingDot,
    injections := injections,
    patterns := topLevelPatterns,
    repository := st.repository }

mutual

/-- All `include` strings appearing in a rule, its nested patterns included. -/
def collectIncludes : Rule → List String
  | .node core ps => core.incl.toList ++ collectIncludesList ps

/-- All `include` strings appearing in a list of rules. -/
def collectIncludesList : List Rule → List String
  | [] => []
  | r :: rs => collectIncludes r ++ collectIncludesList rs

end

/-- Every `include` string a generated grammar contains: top-level patterns,
injection pattern lists, and repository rules. -/
def grammarAllIncludes (g : Grammar) : List String :=
  collectIncludesList g.patterns
  ++ g.injections.flatMap (fun inj => collectIncludesList inj.2.patterns)
  ++ g.repository.flatMap (fun kv => collectIncludes kv.2)

/-- The key set of a grammar's repository. -/
def repoKeys (g : Grammar) : List String :=
  g.repository.map (·.1)

/-- The selector of the first (primary) injection of a grammar. -/
def primarySelectorOf (g : Grammar) : Option String :=
  g.injections.head?.map (·.1)

/-- The scopes excluded by the primary injection selector the script builds for
a non-HTML language without an `injectionSelector` override (the fixed tail of
the template string `L:<scope> - (comment.block | comment.block.jig |
meta.embedded)`). -/
def primaryInjectionExclusions : List String :=
  ["comment.block", "comment.block.jig", "meta.embedded"]

/-- The `contentName` scopes the embed rules of a grammar generated over
`langs` produce: one `meta.embedded.block.<short>` per registered language. -/
def producedContentScopes (langs : List LanguageConfig) : List String :=
  langs.map (fun t => "meta.embedded.block." ++ getShortName t)

/-- TextMate scope-selector matching of a single selector component against a
scope name: equal, or a dot-separated prefix. -/
def scopeCovers (e s : String) : Bool :=
  e == s || (e ++ ".").data.isPrefixOf s.data

/-! ## package.json reconciliation (`updatePackageJson`) -/

/-- `PURE_JIG_LANG` constant. -/
structure PureJigLang where
  id : String
  scopeName : String

def PURE_JIG_LANG : PureJigLang := ⟨"jig", "source.jig"⟩

def FENCED_CODE_BLOCK_SCOPE : String := "embedded.jig.codeblock"

/-- `MANAGED_SCOPES` (a `Set` in the script, modelled as a list). -/
def MANAGED_SCOPES : List String := [FENCED_CODE_BLOCK_SCOPE]

/-- One entry of `contributes.languages`. -/
structure PkgLanguageEntry where
  id : String
  aliases : List String
  extensions : List String
  configuration : String
deriving DecidableEq, Repr

/-- One entry of `contributes.grammars`.  Fields the script may set; a missing
`language`/`injectTo` is `none` and missing maps are `[]`. -/
structure PkgGrammarEntry where
  language : Option String := none
  scopeName : String
  path : String
  injectTo : Option (List String) := none
  embeddedLanguages : List (String × String) := []
  tokenTypes : List (String × String) := []
deriving DecidableEq, Repr

/-- The manifest state `updatePackageJson` reads and rewrites.  `otherFields`
stands for every manifest key the function does not touch. -/
structure PackageJson where
  languages : List PkgLanguageEntry
  grammars : List PkgGrammarEntry
  otherFields : List (String × String)
deriving DecidableEq, Repr

/-- The filter predicate keeping hand-crafted grammar entries. -/
def isHandCraftedGrammar
    (managedScopeNames managedLanguageIds oldScopes : List String)
    (g : PkgGrammarEntry) : Bool :=
  !(managedScopeNames.contains g.scopeName)
  && !(match g.language with
       | some l => managedLanguageIds.contains l
       | none => false)
  && !(oldScopes.contains g.scopeName)
  && !(match g.language with
       | some l => jsStartsWith l "jig-" && !(managedLanguageIds.contains l)
       | none => false)

/-- The `pureJigLanguage` entry. -/
def pureJigLanguage : PkgLanguageEntry :=
  { id := PURE_JIG_LANG.id, aliases := ["Jig"], extensions := [".jig"],
    configuration := "./language-configuration.json" }

/-- The generated `contributes.languages` entries (pure Jig first). -/
def generatedLanguageEntries (languages : List LanguageConfig) :
    List PkgLanguageEntry :=
  pureJigLanguage :: languages.map (fun lang =>
    { id := lang.id,
      aliases := [lang.aliases.head?.getD lang.id, lang.id],
      extensions := lang.extensions,
      configuration := "./language-configuration.json" })

/-- `managedScopeNames` (a `Set` in the script). -/
def managedScopeNames (languages : List LanguageConfig) : List String :=
  MANAGED_SCOPES ++ [PURE_JIG_LANG.scopeName]
  ++ languages.map getPerLanguageScopeName

/-- `managedLanguageIds` (a `Set` in the script). -/
def managedLanguageIds (languages : List LanguageConfig) : List String :=
  PURE_JIG_LANG.id :: languages.map (·.id)

/-- `oldScopes` — stale scopes removed from the manifest. -/
def oldScopes : List String :=
  ["meta.embedded.jig-languages", "source.jig.embedded.language"]

/-- The filter keeping hand-crafted grammar entries, specialised to a
registry. -/
def grammarFilterPred (languages : List LanguageConfig) (g : PkgGrammarEntry) :
    Bool :=
  isHandCraftedGrammar (managedScopeNames languages) (managedLanguageIds languages)
    oldScopes g

/-- `embeddedLanguagesMap` shared by all per-language grammar entries. -/
def embeddedLanguagesMap (languages : List LanguageConfig) :
    List (String × String) :=
  languages.map
    (fun t => ("meta.embedded.block." ++ getShortName t, resolveVscodeLangId t))

/-- `tokenTypesMap` shared by all per-language grammar entries. -/
def tokenTypesMap (languages : List LanguageConfig) : List (String × String) :=
  languages.map (fun t => ("meta.embedded.block." ++ getShortName t, "other"))

/-- The generated `contributes.grammars` entries: pure Jig, one per language,
then the fenced-code-block injection. -/
def generatedGrammarEntries (languages : List LanguageConfig)
    (fencedEmbeddedLanguages fencedTokenTypes : List (String × String)) :
    List PkgGrammarEntry :=
  [{ language := some PURE_JIG_LANG.id, scopeName := PURE_JIG_LANG.scopeName,
     path := "./syntaxes/jig.tmLanguage.json" }]
  ++ languages.map (fun lang =>
      { language := some lang.id,
        scopeName := getPerLanguageScopeName lang,
        path := "./syntaxes/generated/jig-" ++ getShortName lang ++ ".tmLanguage.json",
        embeddedLanguages := embeddedLanguagesMap languages,
        tokenTypes := tokenTypesMap languages })
  ++ [{ scopeName := FENCED_CODE_BLOCK_SCOPE,
        path := "./syntaxes/generated/embedded.jig.tmLanguage.json",
        injectTo := some ["text.html.markdown", "source.mdx"],
        embeddedLanguages := fencedEmbeddedLanguages,
        tokenTypes := fencedTokenTypes }]

/-- `updatePackageJson(languages, fencedEmbeddedLanguages, fencedTokenTypes)`
as a pure function on the manifest value (the script reads the manifest from
disk, rewrites it as below, and writes it back). -/
def updatePackageJson (languages : List LanguageConfig)
    (fencedEmbeddedLanguages fencedTokenTypes : List (String × String))
    (packageJson : PackageJson) : PackageJson :=
  { packageJson with
    languages := generatedLanguageEntries languages,
    grammars :=
      packageJson.grammars.filter (grammarFilterPred languages)
      ++ generatedGrammarEntries languages fencedEmbeddedLanguages fencedTokenTypes }

/-! ## The `main()` run, modelled as an event trace -/

/-- The externally observable steps of one generation run. -/
inductive GenEvent where
  | readLangs
  | mkdirGenerated
  | computeGrammar (fileName : String)
  | writeFile (fileName : String)
  | deleteFile (fileName : String)
  | readPackageJson
  | writePackageJson
  | exitNonZero
deriving DecidableEq, Repr

def perLanguageFileName (lang : LanguageConfig) : String :=
  "jig-" ++ getShortName lang ++ ".tmLanguage.json"

def fencedFileName : String := "embedded.jig.tmLanguage.json"

/-- The `generatedFiles` set at cleanup time. -/
def generatedFileNames (langs : List LanguageConfig) : List String :=
  langs.map perLanguageFileName ++ [fencedFileName]

/-- The files the stale-artifact cleanup deletes from `syntaxes/generated`,
given the directory listing. -/
def staleFiles (langs : List LanguageConfig) (dirFiles : List String) : List String :=
  dirFiles.filter (fun f =>
    jsEndsWith f ".tmLanguage.json" && !((generatedFileNames langs).contains f))

/-- The event trace of `main()`.  `langsRead` is `none` when reading or parsing
languages.json fails (readJSON prints and exits), `pkgRead` is false when
reading or parsing package.json inside `updatePackageJson` fails, and
`dirFiles` is the listing of `syntaxes/generated` at cleanup time. -/
def mainTrace (langsRead : Option (List LanguageConfig)) (pkgRead : Bool)
    (dirFiles : List String) : List GenEvent :=
  match langsRead with
  | none => [.readLangs, .exitNonZero]
  | some langs =>
    [.readLangs, .mkdirGenerated]
    ++ langs.flatMap (fun l =>
        [.computeGrammar (perLanguageFileName l), .writeFile (perLanguageFileName l)])
    ++ [.computeGrammar fencedFileName, .writeFile fencedFileName]
    ++ (staleFiles langs dirFiles).map .deleteFile
    ++ [.readPackageJson]
    ++ (if pkgRead then [.writePackageJson] else [.exitNonZero])

/-- Does the event touch an output file (grammar artifact or manifest)? -/
def touchesOutput : GenEvent → Bool
  | .writeFile _ => true
  | .deleteFile _ => true
  | .writePackageJson => true
  | _ => false

def isCompute : GenEvent → Bool
  | .computeGrammar _ => true
  | _ => false

def isExit : GenEvent → Bool
  | .exitNonZero => true
  | _ => false

/-- Does an event satisfying `p` occur strictly before one satisfying `q`? -/
def occursBefore (p q : GenEvent → Bool) : List GenEvent → Bool
  | [] => false
  | e :: rest => (p e && rest.any q) || occursBefore p q rest

/-! ## Tokenization test harness helpers (tests/helpers/grammar.ts) -/

structure TokenInfo where
  text : String
  scopes : List String
deriving DecidableEq, Repr

structure LineTokens where
  line : String
  tokens : List TokenInfo
deriving DecidableEq, Repr

/-- `getToken(result, lineIndex, text)`: first token on the line whose text
matches exactly; `undefined` on a missing line or no match. -/
def getToken (result : List LineTokens) (lineIndex : Nat) (text : String) :
    Option TokenInfo :=
  match result.get? lineIndex with
  | none => none
  | some line => line.tokens.find? (fun t => t.text == text)

/-- `getTokens(result, lineIndex, text)`: all exactly matching tokens on the
line; `[]` on a missing line. -/
def getTokens (result : List LineTokens) (lineIndex : Nat) (text : String) :
    List TokenInfo :=
  match result.get? lineIndex with
  | none => []
  | some line => line.tokens.filter (fun t => t.text == text)

/-- `getLineTokens(result, lineIndex)`: all tokens on the line; `[]` on a
missing line. -/
def getLineTokens (result : List LineTokens) (lineIndex : Nat) : List TokenInfo :=
  match result.get? lineIndex with
  | none => []
  | some line => line.tokens

/-! ## Sample registry entries (languages.json-shaped values used as concrete
inputs in witnesses and counterexamples) -/

def tsLang : LanguageConfig :=
  { id := "jig-ts", aliases := ["Jig TypeScript"], extensions := [".jig.ts"],
    hostLanguageScope := "source.ts", vscodeLangId := some "typescript",
    overrideAliases := some ["typescript"] }

def mdLang : LanguageConfig :=
  { id := "jig-md", aliases := ["Jig Markdown"], extensions := [".jig.md"],
    hostLanguageScope := "text.html.markdown", vscodeLangId := some "markdown",
    overrideAliases := some ["markdown"], hasGreedyContexts := some true }

/-- A hypothetical registry entry whose id collides case-insensitively with
`tsLang`'s override alias `typescript`. -/
def typescriptLang : LanguageConfig :=
  { id := "jig-typescript", aliases := ["Jig TS Long"], extensions := [".jig.tsx"],
    hostLanguageScope := "source.ts" }

/-- Decimal value of a digit string (capture-group keys are small numerals). -/
def digitsToNat (cs : List Char) : Nat :=
  cs.foldl (fun acc c => acc * 10 + (c.toNat - Char.toNat '0')) 0

/-- Increment a decimal capture-group key by one. -/
def shiftCaptureIndex (s : String) : String :=
  toString (digitsToNat s.data + 1)

/-- A concrete tokenization result used to witness the lookup-helper claims:
one line with two tokens whose text is `a` around one whose text is `b`. -/
def sampleResult : List LineTokens :=
  [{ line := "a b a",
     tokens := [{ text := "a", scopes := ["s1"] },
                { text := "b", scopes := ["s2"] },
                { text := "a", scopes := ["s3"] }] }]

/-! ## Structure lemmas about the assembler loop -/

theorem foldl_processTarget_repository (langs : List LanguageConfig) (st : AsmState) :
    (langs.foldl processTarget st).repository
      = st.repository ++ langs.flatMap targetRepoChunk := by
  induction langs generalizing st with
  | nil => simp
  | cons t ts ih => simp [List.foldl_cons, ih, processTarget, List.append_assoc]

theorem foldl_processTarget_topLevel (langs : List LanguageConfig) (st : AsmState) :
    (langs.foldl processTarget st).topLevelPatterns
      = st.topLevelPatterns
        ++ langs.map (fun t => Rule.ofIncl ("#embed_tag_" ++ getScopeKey t)) := by
  induction langs generalizing st with
  | nil => simp
  | cons t ts ih => simp [List.foldl_cons, ih, processTarget, List.append_assoc]

theorem foldl_processTarget_primary (langs : List LanguageConfig) (st : AsmState) :
    (langs.foldl processTarget st).primaryInjectionPatterns
      = st.primaryInjectionPatterns
        ++ langs.map (fun t => Rule.ofIncl ("#embed_tag_" ++ getScopeKey t)) := by
  induction langs generalizing st with
  | nil => simp
  | cons t ts ih => simp [List.foldl_cons, ih, processTarget, List.append_assoc]

theorem foldl_processTarget_md (langs : List LanguageConfig) (st : AsmState) :
    (langs.foldl processTarget st).mdInjectionPatterns
      = st.mdInjectionPatterns
        ++ langs.map (fun t =>
            Rule.ofIncl ("#embed_tag_" ++ getScopeKey t ++ "_injected")) := by
  induction langs generalizing st with
  | nil => simp
  | cons t ts ih => simp [List.foldl_cons, ih, processTarget, List.append_assoc]

theorem foldl_processTarget_hasGreedy (langs : List LanguageConfig) (st : AsmState) :
    (langs.foldl processTarget st).hasGreedyTarget
      = (st.hasGreedyTarget
          || langs.any (fun t => t.hasGreedyContexts == some true)) := by
  induction langs generalizing st with
  | nil => simp
  | cons t ts ih => simp [List.foldl_cons, ih, processTarget, Bool.or_assoc]

/-- Top-level pattern list of a generated grammar. -/
theorem generate_patterns_eq (lang : LanguageConfig) (langs : List LanguageConfig) :
    (generatePerLanguageGrammar lang langs).patterns
      = langs.map (fun t => Rule.ofIncl ("#embed_tag_" ++ getScopeKey t))
        ++ [Rule.ofIncl "source.jig"]
        ++ (if lang.id == "jig-html"
            then [Rule.ofIncl "text.html.basic", Rule.ofIncl "text.html.derivative"]
            else [Rule.ofIncl lang.hostLanguageScope]) := by
  simp [generatePerLanguageGrammar, foldl_processTarget_topLevel, List.append_assoc]

/-- Repository of a generated grammar. -/
theorem generate_repository_eq (lang : LanguageConfig) (langs : List LanguageConfig) :
    (generatePerLanguageGrammar lang langs).repository
      = [("jig_embed_inner_patterns", generateJigEmbedInnerPatterns),
         ("jig_block", generateJigBlock lang.hostLanguageScope "jig_block")]
        ++ langs.flatMap targetRepoChunk := by
  simp [generatePerLanguageGrammar, foldl_processTarget_repository]

/-- Injection list of a generated grammar. -/
theorem generate_injections_eq (lang : LanguageConfig) (langs : List LanguageConfig) :
    (generatePerLanguageGrammar lang langs).injections
      = [((if lang.id == "jig-html" then
            String.intercalate ", "
              [getPerLanguageScopeName lang ++ " - (meta.embedded | meta.tag | comment.block.jig)",
               "L:(" ++ getPerLanguageScopeName lang ++ " meta.tag - (comment.block.jig | meta.embedded.block.jig))",
               "L:(source.ts.embedded.html - (comment.block.jig | meta.embedded.block.jig))"]
          else
            lang.injectionSelector.getD
              ("L:" ++ getPerLanguageScopeName lang
                ++ " - (comment.block | comment.block.jig | meta.embedded)")),
          { patterns :=
              langs.map (fun t => Rule.ofIncl ("#embed_tag_" ++ getScopeKey t))
              ++ [Rule.ofIncl "source.jig"] })]
        ++ (if langs.any (fun t => t.hasGreedyContexts == some true) then
              [("L:meta.embedded.block.markdown - (comment.block | comment.block.jig)",
                { comment := some "Pierce markdown greedy contexts (paragraph, list) so Jig embed tags, tags, and mustache still highlight.",
                  patterns :=
                    langs.map (fun t =>
                      Rule.ofIncl ("#embed_tag_" ++ getScopeKey t ++ "_injected"))
                    ++ [Rule.ofIncl "#jig_embed_inner_patterns"] })]
            else []) := by
  simp [generatePerLanguageGrammar, foldl_processTarget_primary,
    foldl_processTarget_md, foldl_processTarget_hasGreedy]

/-! ## Claim theorems -/

/-- C1: for every target language and variant, the synthesizer picks the
spec's termination strategy — begin/while (whose while-condition rejects a
bare `@end` at the anchor position, via a backreference to the indentation
group) when the target has greedy contexts or the rule is the injected
variant; begin/end with end pattern `^\s*(@end)\s*$` when the target is
non-greedy and the rule is the top-level variant — and the interior pattern
list is exactly: the recursive block consumer (non-greedy non-injected case
only), then Jig's base patterns (`source.jig`), then the target's host
grammar. -/
theorem C1_embed_rule_termination_strategy
    (t : LanguageConfig) (injected : Bool) :
    ((generateEmbedTagRule t injected).core.end_
        = if (t.hasGreedyContexts == some true) || injected then none
          else some "^\\s*(@end)\\s*$")
  ∧ ((generateEmbedTagRule t injected).core.while_
        = if (t.hasGreedyContexts == some true) || injected then
            some ((if injected then "(^|\\G)" else "^")
              ++ "(?!\\" ++ (if injected then "2" else "1") ++ "@end\\s*$)")
          else none)
  ∧ ((generateEmbedTagRule t injected).patterns
        = (if !(t.hasGreedyContexts == some true) && !injected
           then [Rule.ofIncl ("#jig_block_" ++ getScopeKey t)] else [])
          ++ [Rule.ofIncl "source.jig", Rule.ofIncl t.hostLanguageScope]) := by
  cases injected <;> cases h : (t.hasGreedyContexts == some true) <;>
    simp [generateEmbedTagRule, Rule.core, Rule.patterns, h]

/-- C2 counterexample: for the registry `[tsLang, mdLang]`, the grammar
generated for `tsLang` does not have the claimed top-level pattern list
(one embed rule per *other* language, then `source.jig`, then the host):
it additionally contains an embed rule for `tsLang` itself. -/
theorem C2_counterexample :
    ¬ ((generatePerLanguageGrammar tsLang [tsLang, mdLang]).patterns
        = [Rule.ofIncl "#embed_tag_md", Rule.ofIncl "source.jig",
           Rule.ofIncl "source.ts"]) := by
  intro h
  have h2 := congrArg (List.map (fun r => r.core.incl)) h
  exact absurd h2 (by decide)

/-- C2 (amended): the generated grammar for L contains, at the top level, one
embed rule per registered language — L itself included — ordered identically
to registry declaration order, followed by `source.jig`, with the host
grammar(s) appended last (`text.html.basic` and `text.html.derivative` for
jig-html, otherwise L's `hostLanguageScope`). -/
theorem C2_top_level_pattern_order
    (lang : LanguageConfig) (langs : List LanguageConfig) :
    (generatePerLanguageGrammar lang langs).patterns
      = langs.map (fun t => Rule.ofIncl ("#embed_tag_" ++ getScopeKey t))
        ++ [Rule.ofIncl "source.jig"]
        ++ (if lang.id == "jig-html"
            then [Rule.ofIncl "text.html.basic", Rule.ofIncl "text.html.derivative"]
            else [Rule.ofIncl lang.hostLanguageScope]) :=
  generate_patterns_eq lang langs

/-- C3: with two registered target languages whose name sets overlap
case-insensitively (`tsLang` has override alias `typescript`; the other
language's short name is `typescript`), grammar synthesis does not abort:
it runs to completion and produces grammars for both languages, each
containing both embed rules, whose language alternations both match
`typescript`. -/
theorem C3_alias_collision_not_rejected :
    buildLanguageAlternation tsLang = "(?i:ts|typescript)"
  ∧ buildLanguageAlternation typescriptLang = "(?i:typescript)"
  ∧ ((generatePerLanguageGrammar tsLang [tsLang, typescriptLang]).patterns.map
        (fun r => r.core.incl)
      = [some "#embed_tag_ts", some "#embed_tag_typescript",
         some "source.jig", some "source.ts"])
  ∧ ((generatePerLanguageGrammar typescriptLang [tsLang, typescriptLang]).patterns.map
        (fun r => r.core.incl)
      = [some "#embed_tag_ts", some "#embed_tag_typescript",
         some "source.jig", some "source.ts"]) := by
  refine ⟨by decide, by decide, by decide, by decide⟩

/-- C7: the embed rule generated for a target is a function of the target and
the injected flag only — the per-target repository segment (everything after
the two host-dependent base entries) coincides for any two host languages —
and the injected begin pattern differs from the top-level one only in its
anchor (`(^|\G)` versus `^`), with every capture-group index shifted by
one. -/
theorem C7_embed_rule_host_independence
    (L1 L2 : LanguageConfig) (langs : List LanguageConfig) (t : LanguageConfig) :
    ((generatePerLanguageGrammar L1 langs).repository.drop 2
      = (generatePerLanguageGrammar L2 langs).repository.drop 2)
  ∧ (∃ rest,
      (generateEmbedTagRule t false).core.begin_ = some ("^" ++ rest)
      ∧ (generateEmbedTagRule t true).core.begin_ = some ("(^|\\G)" ++ rest)
      ∧ (generateEmbedTagRule t true).core.beginCaptures
          = (generateEmbedTagRule t false).core.beginCaptures.map
              (fun p => (shiftCaptureIndex p.1, p.2))) := by
  constructor
  · simp [generate_repository_eq]
  · refine ⟨"(\\s*)(@\x7b1,2\x7d(!)?[a-zA-Z._]+\\s\x7b0,2\x7d)(\\([^)]*\\))(\\s*:\\s*"
      ++ buildLanguageAlternation t ++ ")\\s*$", ?_, ?_, ?_⟩
    · cases h : (t.hasGreedyContexts == some true) <;>
        simp [generateEmbedTagRule, Rule.core, h] <;>
        exact append_split2 "^"
          "(\\s*)(@\x7b1,2\x7d(!)?[a-zA-Z._]+\\s\x7b0,2\x7d)(\\([^)]*\\))(\\s*:\\s*"
          (buildLanguageAlternation t) ")\\s*$"
          "^(\\s*)(@\x7b1,2\x7d(!)?[a-zA-Z._]+\\s\x7b0,2\x7d)(\\([^)]*\\))(\\s*:\\s*"
          (by decide)
    · cases h : (t.hasGreedyContexts == some true) <;>
        simp [generateEmbedTagRule, Rule.core, h] <;>
        exact append_split2 "(^|\\G)"
          "(\\s*)(@\x7b1,2\x7d(!)?[a-zA-Z._]+\\s\x7b0,2\x7d)(\\([^)]*\\))(\\s*:\\s*"
          (buildLanguageAlternation t) ")\\s*$"
          "(^|\\G)(\\s*)(@\x7b1,2\x7d(!)?[a-zA-Z._]+\\s\x7b0,2\x7d)(\\([^)]*\\))(\\s*:\\s*"
          (by decide)
    · cases h : (t.hasGreedyContexts == some true) <;>
        cases h2 : (t.hasGreedyContexts == some true) || true <;>
          simp [generateEmbedTagRule, Rule.core, h] <;> decide

/-- If an event satisfying `p` is followed, anywhere later, by one satisfying
`q`, then `occursBefore p q` holds. -/
theorem occursBefore_of_split (p q : GenEvent → Bool) (pre : List GenEvent)
    (e : GenEvent) (post : List GenEvent) (hp : p e = true)
    (hq : post.any q = true) :
    occursBefore p q (pre ++ e :: post) = true := by
  induction pre with
  | nil => simp [occursBefore, hp, hq]
  | cons a as ih => simp [occursBefore, ih]

/-- C4 counterexample: for the registry `[tsLang, mdLang]` with a readable
languages.json, an unparsable package.json and one stale file on disk, the
run both touches output files before its non-zero exit and touches output
files before later in-memory artifacts are computed. -/
theorem C4_counterexample :
    ¬ (occursBefore touchesOutput isExit
        (mainTrace (some [tsLang, mdLang]) false ["old.tmLanguage.json"]) = false
       ∧ occursBefore touchesOutput isCompute
        (mainTrace (some [tsLang, mdLang]) false ["old.tmLanguage.json"]) = false) := by
  decide

/-- C4 (amended): a failure reading or parsing the languages configuration
makes the process exit non-zero before any output file is touched; but grammar
artifacts are written one by one as each grammar is computed (with at least two
registered languages, an output write precedes a later in-memory computation),
and a failure reading or parsing package.json exits non-zero only after the
grammar artifacts have already been written. -/
theorem C4_no_write_before_config_failure :
    (∀ (pkgRead : Bool) (dirFiles : List String),
      (mainTrace none pkgRead dirFiles).all (fun e => !touchesOutput e) = true)
  ∧ (∀ (l : LanguageConfig) (ls : List LanguageConfig) (dirFiles : List String),
      occursBefore touchesOutput isExit
        (mainTrace (some (l :: ls)) false dirFiles) = true)
  ∧ (∀ (l1 l2 : LanguageConfig) (ls : List LanguageConfig) (pkgRead : Bool)
        (dirFiles : List String),
      occursBefore touchesOutput isCompute
        (mainTrace (some (l1 :: l2 :: ls)) pkgRead dirFiles) = true) := by
  refine ⟨fun pkgRead dirFiles => rfl, ?_, ?_⟩
  · intro l ls dirFiles
    have htr : mainTrace (some (l :: ls)) false dirFiles
        = [.readLangs, .mkdirGenerated, .computeGrammar (perLanguageFileName l)]
          ++ .writeFile (perLanguageFileName l)
          :: (ls.flatMap (fun x =>
                [.computeGrammar (perLanguageFileName x),
                 .writeFile (perLanguageFileName x)])
              ++ [.computeGrammar fencedFileName, .writeFile fencedFileName]
              ++ (staleFiles (l :: ls) dirFiles).map .deleteFile
              ++ [.readPackageJson] ++ [.exitNonZero]) := by
      simp [mainTrace]
    rw [htr]
    exact occursBefore_of_split _ _ _ _ _ rfl (by simp [List.any_append, isExit])
  · intro l1 l2 ls pkgRead dirFiles
    have htr : mainTrace (some (l1 :: l2 :: ls)) pkgRead dirFiles
        = [.readLangs, .mkdirGenerated, .computeGrammar (perLanguageFileName l1)]
          ++ .writeFile (perLanguageFileName l1)
          :: (.computeGrammar (perLanguageFileName l2)
              :: .writeFile (perLanguageFileName l2)
              :: (ls.flatMap (fun x =>
                    [.computeGrammar (perLanguageFileName x),
                     .writeFile (perLanguageFileName x)])
                  ++ [.computeGrammar fencedFileName, .writeFile fencedFileName]
                  ++ (staleFiles (l1 :: l2 :: ls) dirFiles).map .deleteFile
                  ++ [.readPackageJson]
                  ++ (if pkgRead then [.writePackageJson] else [.exitNonZero]))) := by
      simp [mainTrace]
    rw [htr]
    exact occursBefore_of_split _ _ _ _ _ rfl (by simp [List.any_cons, isCompute])

/-- C5 counterexample: for the registry `[tsLang, mdLang]`, the primary
injection selector of `tsLang`'s grammar excludes the fixed scopes
`comment.block | comment.block.jig | meta.embedded`, and this exclusion list
is not the produced-contentScope set: `meta.embedded` is excluded yet is not a
contentScope produced by the grammar's embed rules. -/
theorem C5_counterexample :
    primarySelectorOf (generatePerLanguageGrammar tsLang [tsLang, mdLang])
      = some ("L:text.jig.ts - ("
          ++ String.intercalate " | " primaryInjectionExclusions ++ ")")
  ∧ ¬ (∀ s ∈ primaryInjectionExclusions,
        s ∈ producedContentScopes [tsLang, mdLang]) := by
  constructor
  · decide
  · intro h
    exact absurd (h "meta.embedded" (by decide)) (by decide)

/-- C5 (amended): for every non-HTML language without an `injectionSelector`
override, the primary injection selector is
`L:<scope> - (comment.block | comment.block.jig | meta.embedded)`; its
exclusion list is this fixed triple rather than the produced contentScope set,
but every contentScope the grammar's embed rules produce
(`meta.embedded.block.<target>`) is covered by the `meta.embedded` exclusion
under TextMate dot-prefix scope matching. -/
theorem C5_primary_selector_exclusions
    (lang : LanguageConfig) (langs : List LanguageConfig)
    (h1 : lang.id ≠ "jig-html") (h2 : lang.injectionSelector = none) :
    primarySelectorOf (generatePerLanguageGrammar lang langs)
      = some ("L:" ++ getPerLanguageScopeName lang ++ " - ("
          ++ String.intercalate " | " primaryInjectionExclusions ++ ")")
  ∧ ∀ s ∈ producedContentScopes langs,
      ∃ e ∈ primaryInjectionExclusions, scopeCovers e s = true := by
  constructor
  · have hb : (lang.id == "jig-html") = false := beq_eq_false_iff_ne.2 h1
    rw [primarySelectorOf, generate_injections_eq]
    have hX : String.intercalate " | " primaryInjectionExclusions
        = "comment.block | comment.block.jig | meta.embedded" := by decide
    rw [hX]
    have hlit : ((" - (" : String) ++ "comment.block | comment.block.jig | meta.embedded") ++ ")"
        = " - (comment.block | comment.block.jig | meta.embedded)" := by decide
    rw [string_append_assoc ("L:" ++ getPerLanguageScopeName lang) " - ("
        "comment.block | comment.block.jig | meta.embedded",
      string_append_assoc ("L:" ++ getPerLanguageScopeName lang)
        (" - (" ++ "comment.block | comment.block.jig | meta.embedded") ")"]
    rw [hlit]
    simp [hb, h2]
  · intro s hs
    refine ⟨"meta.embedded", by simp [primaryInjectionExclusions], ?_⟩
    obtain ⟨t, ht, rfl⟩ := List.mem_map.1 hs
    rw [scopeCovers]
    simp only [Bool.or_eq_true]
    refine Or.inr ?_
    rw [List.isPrefixOf_iff_prefix]
    have hdot : ("meta.embedded" ++ "." : String) = "meta.embedded." := by decide
    rw [hdot, string_data_append]
    exact List.IsPrefix.trans
      (by decide : ("meta.embedded." : String).data <+: ("meta.embedded.block." : String).data)
      (List.prefix_append _ _)

/-- C5 witness: the amended selector/coverage statement instantiated at
`tsLang` over the registry `[tsLang, mdLang]`. -/
theorem C5_primary_selector_exclusions_witness :
    primarySelectorOf (generatePerLanguageGrammar tsLang [tsLang, mdLang])
      = some ("L:" ++ getPerLanguageScopeName tsLang ++ " - ("
          ++ String.intercalate " | " primaryInjectionExclusions ++ ")")
  ∧ ∀ s ∈ producedContentScopes [tsLang, mdLang],
      ∃ e ∈ primaryInjectionExclusions, scopeCovers e s = true :=
  C5_primary_selector_exclusions tsLang [tsLang, mdLang] (by decide) rfl

/-- Every generated grammar manifest entry is rejected by the hand-crafted
filter (its scope name is managed). -/
theorem grammarFilterPred_generated_false (languages : List LanguageConfig)
    (fEL fTT : List (String × String)) :
    ∀ g ∈ generatedGrammarEntries languages fEL fTT,
      grammarFilterPred languages g = false := by
  intro g hg
  rw [generatedGrammarEntries] at hg
  rcases List.mem_append.1 hg with hg1 | hg2
  · rcases List.mem_append.1 hg1 with hg3 | hg4
    · -- pure Jig entry: scopeName = source.jig ∈ managedScopeNames
      have hgs : g.scopeName = PURE_JIG_LANG.scopeName := by
        simp at hg3; rw [hg3]
      have hmem : g.scopeName ∈ managedScopeNames languages := by
        rw [hgs, managedScopeNames]
        simp [MANAGED_SCOPES]
      simp [grammarFilterPred, isHandCraftedGrammar, hmem]
    · -- per-language entry: scopeName = getPerLanguageScopeName lang
      obtain ⟨lang, hlang, rfl⟩ := List.mem_map.1 hg4
      have hmem : getPerLanguageScopeName lang ∈ managedScopeNames languages := by
        rw [managedScopeNames]
        refine List.mem_append.2 (Or.inr ?_)
        exact List.mem_map.2 ⟨lang, hlang, rfl⟩
      simp [grammarFilterPred, isHandCraftedGrammar, hmem]
  · -- fenced entry: scopeName = FENCED_CODE_BLOCK_SCOPE
    have hgs : g.scopeName = FENCED_CODE_BLOCK_SCOPE := by
      simp at hg2; rw [hg2]
    have hmem : g.scopeName ∈ managedScopeNames languages := by
      rw [hgs, managedScopeNames]
      simp [MANAGED_SCOPES]
    simp [grammarFilterPred, isHandCraftedGrammar, hmem]

/-- C8: manifest reconciliation is idempotent — for every starting manifest
and fixed generated set (languages, fenced embedded-language and token-type
maps), applying `updatePackageJson` twice yields the manifest of applying it
once. -/
theorem C8_updatePackageJson_idempotent (languages : List LanguageConfig)
    (fEL fTT : List (String × String)) (pkg : PackageJson) :
    updatePackageJson languages fEL fTT (updatePackageJson languages fEL fTT pkg)
      = updatePackageJson languages fEL fTT pkg := by
  have hGen : (generatedGrammarEntries languages fEL fTT).filter
      (grammarFilterPred languages) = [] :=
    List.filter_eq_nil_iff.2 (fun g hg => by
      simp [grammarFilterPred_generated_false languages fEL fTT g hg])
  simp only [updatePackageJson]
  congr 1
  rw [List.filter_append, hGen, List.append_nil, List.filter_filter]
  rw [List.filter_congr (fun x _ => Bool.and_self (grammarFilterPred languages x))]

/-- `List.find?` returns the first matching element. -/
theorem find?_first {α : Type _} (p : α → Bool) (l : List α) (a : α)
    (h : l.find? p = some a) :
    p a = true ∧ ∃ pre suf, l = pre ++ a :: suf ∧ ∀ x ∈ pre, p x = false := by
  induction l with
  | nil => simp at h
  | cons x xs ih =>
    cases hpx : p x with
    | true =>
      rw [List.find?_cons_of_pos _ hpx] at h
      obtain rfl : x = a := by injection h
      exact ⟨hpx, [], xs, rfl, by simp⟩
    | false =>
      rw [List.find?_cons_of_neg _ (by simp [hpx])] at h
      obtain ⟨hpa, pre, suf, heq, hpre⟩ := ih h
      refine ⟨hpa, x :: pre, suf, by rw [heq]; rfl, ?_⟩
      intro y hy
      rcases List.mem_cons.1 hy with rfl | hy2
      · exact hpx
      · exact hpre y hy2

theorem getToken_some_line (result : List LineTokens) (i : Nat)
    (line : LineTokens) (text : String) (hl : result.get? i = some line) :
    getToken result i text = line.tokens.find? (fun t => t.text == text) := by
  unfold getToken; rw [hl]

theorem getToken_none_line (result : List LineTokens) (i : Nat) (text : String)
    (hl : result.get? i = none) : getToken result i text = none := by
  unfold getToken; rw [hl]

theorem getTokens_some_line (result : List LineTokens) (i : Nat)
    (line : LineTokens) (text : String) (hl : result.get? i = some line) :
    getTokens result i text = line.tokens.filter (fun t => t.text == text) := by
  unfold getTokens; rw [hl]

theorem getTokens_none_line (result : List LineTokens) (i : Nat) (text : String)
    (hl : result.get? i = none) : getTokens result i text = [] := by
  unfold getTokens; rw [hl]

theorem getLineTokens_some_line (result : List LineTokens) (i : Nat)
    (line : LineTokens) (hl : result.get? i = some line) :
    getLineTokens result i = line.tokens := by
  unfold getLineTokens; rw [hl]

theorem getLineTokens_none_line (result : List LineTokens) (i : Nat)
    (hl : result.get? i = none) : getLineTokens result i = [] := by
  unfold getLineTokens; rw [hl]

/-- C9: the token-lookup helpers are total at the public interface — an
out-of-range line index yields `none`/`[]` instead of throwing, a line with
no exactly matching token yields `none`/`[]`, and when several tokens match,
`getToken` returns the first in line order. -/
theorem C9_token_lookup_total (result : List LineTokens) (lineIndex : Nat)
    (text : String) :
    (result.length ≤ lineIndex →
      getToken result lineIndex text = none
      ∧ getTokens result lineIndex text = []
      ∧ getLineTokens result lineIndex = [])
  ∧ ((∀ t ∈ getLineTokens result lineIndex, t.text ≠ text) →
      getToken result lineIndex text = none
      ∧ getTokens result lineIndex text = [])
  ∧ (∀ t, getToken result lineIndex text = some t →
      t.text = text
      ∧ ∃ pre suf, getLineTokens result lineIndex = pre ++ t :: suf
          ∧ ∀ u ∈ pre, u.text ≠ text) := by
  refine ⟨?_, ?_, ?_⟩
  · intro h
    have hn : result.get? lineIndex = none := List.get?_eq_none.2 h
    exact ⟨getToken_none_line result lineIndex text hn,
      getTokens_none_line result lineIndex text hn,
      getLineTokens_none_line result lineIndex hn⟩
  · intro h
    cases hl : result.get? lineIndex with
    | none =>
      exact ⟨getToken_none_line result lineIndex text hl,
        getTokens_none_line result lineIndex text hl⟩
    | some line =>
      have h' : ∀ t ∈ line.tokens, (t.text == text) = false := by
        intro t ht
        refine beq_eq_false_iff_ne.2 (h t ?_)
        rw [getLineTokens_some_line result lineIndex line hl]
        exact ht
      constructor
      · rw [getToken_some_line result lineIndex line text hl]
        exact List.find?_eq_none.2 (fun x hx => by simp [h' x hx])
      · rw [getTokens_some_line result lineIndex line text hl]
        exact List.filter_eq_nil_iff.2 (fun x hx => by simp [h' x hx])
  · intro t ht
    cases hl : result.get? lineIndex with
    | none =>
      rw [getToken_none_line result lineIndex text hl] at ht
      cases ht
    | some line =>
      rw [getToken_some_line result lineIndex line text hl] at ht
      obtain ⟨hpt, pre, suf, heq, hpre⟩ := find?_first _ _ _ ht
      refine ⟨by simpa using hpt, pre, suf, ?_, ?_⟩
      · rw [getLineTokens_some_line result lineIndex line hl, heq]
      · intro u hu
        exact beq_eq_false_iff_ne.1 (hpre u hu)

/-- C9 witness: the lookup helpers applied to `sampleResult` — line index 5 is
out of range, and on line 0 the first of the two tokens whose text is `a` is
returned. -/
theorem C9_token_lookup_total_witness :
    (getToken sampleResult 5 "a" = none
     ∧ getTokens sampleResult 5 "a" = []
     ∧ getLineTokens sampleResult 5 = [])
  ∧ ((TokenInfo.mk "a" ["s1"]).text = "a"
     ∧ ∃ pre suf,
         getLineTokens sampleResult 0 = pre ++ TokenInfo.mk "a" ["s1"] :: suf
         ∧ ∀ u ∈ pre, u.text ≠ "a") :=
  ⟨(C9_token_lookup_total sampleResult 5 "a").1 (by decide),
   (C9_token_lookup_total sampleResult 0 "a").2.2 (TokenInfo.mk "a" ["s1"])
     (by decide)⟩

/-- Every file name the run produces ends in `.tmLanguage.json`. -/
theorem generatedFileNames_endsWith (langs : List LanguageConfig) :
    ∀ g ∈ generatedFileNames langs, jsEndsWith g ".tmLanguage.json" = true := by
  intro g hg
  rw [generatedFileNames] at hg
  rcases List.mem_append.1 hg with hg1 | hg2
  · obtain ⟨l, _, rfl⟩ := List.mem_map.1 hg1
    rw [perLanguageFileName, jsEndsWith, string_data_append]
    exact List.isSuffixOf_iff_suffix.2 (List.suffix_append _ _)
  · have : g = fencedFileName := by simpa using hg2
    rw [this]
    decide

/-- C10: the stale-artifact cleanup deletes exactly the files whose name ends
in `.tmLanguage.json` and that the current run did not produce; a file with
any other suffix is neither deleted nor among the files generation writes into
the output directory. -/
theorem C10_cleanup_frame (langs : List LanguageConfig) (dirFiles : List String)
    (f : String) :
    (f ∈ staleFiles langs dirFiles
      ↔ f ∈ dirFiles ∧ jsEndsWith f ".tmLanguage.json" = true
        ∧ f ∉ generatedFileNames langs)
  ∧ (jsEndsWith f ".tmLanguage.json" = false →
      f ∉ staleFiles langs dirFiles ∧ f ∉ generatedFileNames langs) := by
  constructor
  · rw [staleFiles]
    rw [List.mem_filter]
    constructor
    · rintro ⟨hmem, hp⟩
      rw [Bool.and_eq_true] at hp
      refine ⟨hmem, hp.1, fun hin => ?_⟩
      have hc : (generatedFileNames langs).contains f = true :=
        List.elem_iff.mpr hin
      have := hp.2
      rw [hc] at this
      simp at this
    · rintro ⟨hmem, hend, hnin⟩
      refine ⟨hmem, ?_⟩
      rw [Bool.and_eq_true]
      refine ⟨hend, ?_⟩
      cases hc : (generatedFileNames langs).contains f with
      | false => rfl
      | true => exact absurd (List.elem_iff.mp hc) hnin
  · intro h
    constructor
    · intro hmem
      rw [staleFiles, List.mem_filter, Bool.and_eq_true] at hmem
      rw [h] at hmem
      exact Bool.false_ne_true hmem.2.1
    · intro hmem
      have := generatedFileNames_endsWith langs f hmem
      rw [h] at this
      exact Bool.false_ne_true this

theorem collectIncludes_ofIncl (s : String) :
    collectIncludes (Rule.ofIncl s) = [s] := rfl

theorem collectIncludesList_eq (l : List Rule) :
    collectIncludesList l = l.flatMap collectIncludes := by
  induction l with
  | nil => rfl
  | cons r rs ih => simp [collectIncludesList, ih]

theorem collectIncludes_embedTag (t : LanguageConfig) (injected : Bool) :
    collectIncludes (generateEmbedTagRule t injected)
      = (if !(t.hasGreedyContexts == some true) && !injected
         then ["#jig_block_" ++ getScopeKey t] else [])
        ++ ["source.jig", t.hostLanguageScope] := by
  cases hg : (t.hasGreedyContexts == some true) <;> cases injected <;>
    simp [generateEmbedTagRule, hg, collectIncludes, collectIncludesList,
      Rule.ofIncl]

theorem collectIncludes_jigBlock (host selfRef : String) :
    collectIncludes (generateJigBlock host selfRef)
      = ["#" ++ selfRef, "source.jig", host] := by
  simp [generateJigBlock, collectIncludes, collectIncludesList, Rule.ofIncl]

theorem collectIncludes_inner :
    collectIncludes generateJigEmbedInnerPatterns
      = ["source.ts#expression", "source.ts#expression", "source.ts#expression"] :=
  rfl

/-- The keys one target contributes to the repository. -/
theorem targetRepoChunk_keys (t : LanguageConfig) :
    (targetRepoChunk t).map Prod.fst
      = ["embed_tag_" ++ getScopeKey t,
         "embed_tag_" ++ getScopeKey t ++ "_injected"]
        ++ (if t.hasGreedyContexts == some true then []
            else ["jig_block_" ++ getScopeKey t]) := by
  cases hg : (t.hasGreedyContexts == some true) <;> simp [targetRepoChunk, hg]

/-- The repository key list of a generated grammar. -/
theorem repoKeys_eq (lang : LanguageConfig) (langs : List LanguageConfig) :
    repoKeys (generatePerLanguageGrammar lang langs)
      = ["jig_embed_inner_patterns", "jig_block"]
        ++ langs.flatMap (fun t =>
            ["embed_tag_" ++ getScopeKey t,
             "embed_tag_" ++ getScopeKey t ++ "_injected"]
            ++ (if t.hasGreedyContexts == some true then []
                else ["jig_block_" ++ getScopeKey t])) := by
  rw [repoKeys, generate_repository_eq]
  simp [List.map_flatMap, targetRepoChunk_keys]

theorem embedTag_key_mem (lang : LanguageConfig) (langs : List LanguageConfig)
    (t : LanguageConfig) (ht : t ∈ langs) :
    ("embed_tag_" ++ getScopeKey t)
      ∈ repoKeys (generatePerLanguageGrammar lang langs) := by
  rw [repoKeys_eq]
  refine List.mem_append.2 (Or.inr ?_)
  exact List.mem_flatMap.2 ⟨t, ht, by simp⟩

theorem embedTagInj_key_mem (lang : LanguageConfig) (langs : List LanguageConfig)
    (t : LanguageConfig) (ht : t ∈ langs) :
    ("embed_tag_" ++ getScopeKey t ++ "_injected")
      ∈ repoKeys (generatePerLanguageGrammar lang langs) := by
  rw [repoKeys_eq]
  refine List.mem_append.2 (Or.inr ?_)
  exact List.mem_flatMap.2 ⟨t, ht, by simp⟩

theorem jigBlockTarget_key_mem (lang : LanguageConfig) (langs : List LanguageConfig)
    (t : LanguageConfig) (ht : t ∈ langs)
    (hg : (t.hasGreedyContexts == some true) = false) :
    ("jig_block_" ++ getScopeKey t)
      ∈ repoKeys (generatePerLanguageGrammar lang langs) := by
  rw [repoKeys_eq]
  refine List.mem_append.2 (Or.inr ?_)
  exact List.mem_flatMap.2 ⟨t, ht, by simp [hg]⟩

/-- C10 witness: with registry `[tsLang]` and a directory holding one stale
grammar and a README, the README (different suffix) is neither deleted nor a
produced file name. -/
theorem C10_cleanup_frame_witness :
    "README.md" ∉ staleFiles [tsLang] ["old.tmLanguage.json", "README.md"]
    ∧ "README.md" ∉ generatedFileNames [tsLang] :=
  (C10_cleanup_frame [tsLang] ["old.tmLanguage.json", "README.md"] "README.md").2
    (by decide)

/-- Prefix-splitting of the injected embed-rule include string. -/
theorem hash_embed_injected (x : String) :
    "#embed_tag_" ++ x ++ "_injected" = "#" ++ ("embed_tag_" ++ x ++ "_injected") := by
  rw [append_split "#" "embed_tag_" "#embed_tag_" x (by decide), string_append_assoc]

/-- C6: every generated per-language grammar is repository-closed — each
`#name` inclusion in its top-level patterns, its injection pattern lists, or
inside any repository rule refers to a key present in the same grammar's
repository (given the data-model well-formedness condition that
`hostLanguageScope` values are external scope names, i.e. never start with
`#`). -/
theorem C6_repository_closed (lang : LanguageConfig) (langs : List LanguageConfig)
    (hhost : ∀ t ∈ langs, jsStartsWith t.hostLanguageScope "#" = false)
    (hself : jsStartsWith lang.hostLanguageScope "#" = false) :
    ∀ s ∈ grammarAllIncludes (generatePerLanguageGrammar lang langs),
      jsStartsWith s "#" = true →
        ∃ k ∈ repoKeys (generatePerLanguageGrammar lang langs), s = "#" ++ k := by
  intro s hs hstart
  rw [grammarAllIncludes, generate_patterns_eq, generate_injections_eq,
    generate_repository_eq] at hs
  simp only [collectIncludesList_eq, List.flatMap_append, List.flatMap_cons,
    List.flatMap_nil, List.flatMap_map, List.mem_append, List.mem_flatMap,
    List.mem_map, List.mem_cons, List.mem_singleton, List.not_mem_nil,
    or_false, false_or, collectIncludes_ofIncl,
    collectIncludes_embedTag, collectIncludes_jigBlock, collectIncludes_inner,
    targetRepoChunk] at hs
  -- reusable dischargers
  have resolveEmbed : ∀ t ∈ langs, ∀ (hss : s = "#embed_tag_" ++ getScopeKey t),
      ∃ k ∈ repoKeys (generatePerLanguageGrammar lang langs), s = "#" ++ k := by
    intro t ht hss
    exact ⟨"embed_tag_" ++ getScopeKey t, embedTag_key_mem lang langs t ht,
      hss ▸ append_split "#" "embed_tag_" "#embed_tag_" (getScopeKey t) (by decide)⟩
  have resolveHost : ∀ t ∈ langs, s = t.hostLanguageScope → False := by
    intro t ht hss
    rw [hss, hhost t ht] at hstart
    simp at hstart
  rcases hs with ((hTopA | hTopHost) | (hPrimA | hMd)) | (hRepoBase | hChunk)
  · -- top-level: embed-tag includes or source.jig
    rcases hTopA with ⟨t, ht, rfl⟩ | rfl
    · exact resolveEmbed t ht rfl
    · exact absurd hstart (by decide)
  · -- top-level host includes
    obtain ⟨a, ha, hsa⟩ := hTopHost
    by_cases hhtml : (lang.id == "jig-html") = true
    · simp [hhtml, collectIncludes_ofIncl] at ha
      rcases ha with rfl | rfl <;> simp [collectIncludes_ofIncl] at hsa <;>
        (rw [hsa] at hstart; exact absurd hstart (by decide))
    · simp [hhtml, collectIncludes_ofIncl] at ha
      rw [ha] at hsa
      simp [collectIncludes_ofIncl] at hsa
      rw [hsa, hself] at hstart
      simp at hstart
  · -- primary injection: embed-tag includes or source.jig
    rcases hPrimA with ⟨t, ht, rfl⟩ | rfl
    · exact resolveEmbed t ht rfl
    · exact absurd hstart (by decide)
  · -- markdown-piercing injection
    obtain ⟨a, ha, a1, ha1, hsa1⟩ := hMd
    by_cases hgr : (langs.any fun t => t.hasGreedyContexts == some true) = true
    · simp [hgr] at ha
      subst ha
      simp only [List.mem_append, List.mem_map, List.mem_singleton] at ha1
      rcases ha1 with ⟨t, ht, rfl⟩ | rfl
      · simp [collectIncludes_ofIncl] at hsa1
        subst hsa1
        exact ⟨"embed_tag_" ++ getScopeKey t ++ "_injected",
          embedTagInj_key_mem lang langs t ht,
          hash_embed_injected (getScopeKey t)⟩
      · simp [collectIncludes_ofIncl] at hsa1
        subst hsa1
        refine ⟨"jig_embed_inner_patterns", ?_, by decide⟩
        rw [repoKeys_eq]; simp
    · simp [hgr] at ha
  · -- repository base entries
    rcases hRepoBase with (rfl | rfl | rfl) | rfl | rfl | rfl
    · exact absurd hstart (by decide)
    · exact absurd hstart (by decide)
    · exact absurd hstart (by decide)
    · refine ⟨"jig_block", ?_, rfl⟩
      rw [repoKeys_eq]; simp
    · exact absurd hstart (by decide)
    · rw [hself] at hstart; simp at hstart
  · -- repository per-target chunks
    obtain ⟨a, ⟨t, ht, hcase⟩, hsa⟩ := hChunk
    rcases hcase with (rfl | rfl) | hjb
    · -- embed_tag_<key> rule
      rw [collectIncludes_embedTag] at hsa
      cases hg : (t.hasGreedyContexts == some true) with
      | false =>
        simp [hg] at hsa
        rcases hsa with rfl | rfl | hsh
        · exact ⟨"jig_block_" ++ getScopeKey t,
            jigBlockTarget_key_mem lang langs t ht hg,
            append_split "#" "jig_block_" "#jig_block_" (getScopeKey t) (by decide)⟩
        · exact absurd hstart (by decide)
        · exact (resolveHost t ht hsh).elim
      | true =>
        simp [hg] at hsa
        rcases hsa with rfl | hsh
        · exact absurd hstart (by decide)
        · exact (resolveHost t ht hsh).elim
    · -- embed_tag_<key>_injected rule
      rw [collectIncludes_embedTag] at hsa
      simp at hsa
      rcases hsa with rfl | hsh
      · exact absurd hstart (by decide)
      · exact (resolveHost t ht hsh).elim
    · -- jig_block_<key> rule (non-greedy targets only)
      cases hg : (t.hasGreedyContexts == some true) with
      | true =>
        simp at hjb hg
        exact absurd hg hjb.1
      | false =>
        simp at hjb
        obtain ⟨hne, ha⟩ := hjb
        subst ha
        rw [collectIncludes_jigBlock] at hsa
        simp at hsa
        rcases hsa with rfl | rfl | hsh
        · exact ⟨"jig_block_" ++ getScopeKey t,
            jigBlockTarget_key_mem lang langs t ht hg, rfl⟩
        · exact absurd hstart (by decide)
        · exact (resolveHost t ht hsh).elim

/-- C6 witness: in the grammar generated for `tsLang` over `[tsLang, mdLang]`,
the include `#embed_tag_md` resolves to an existing repository key. -/
theorem C6_repository_closed_witness :
    ∃ k ∈ repoKeys (generatePerLanguageGrammar tsLang [tsLang, mdLang]),
      "#embed_tag_md" = "#" ++ k :=
  C6_repository_closed tsLang [tsLang, mdLang] (by decide) (by decide)
    "#embed_tag_md" (by decide) (by decide)

end Jig
